import Mathlib

/-!
A shallow embedding of the core of the reciprocal smallest distance (RSD)
ortholog-detection program (`rsd/rsd.py` and `rsd/orthutil.py`), together with
theorems settling the specification claims about it.

Modelling conventions:
* Python strings holding sequences are `List Char`; sequence ids are `String`.
* Python floats (evalues, divergences, distances) are modelled as `ℚ`.
* External collaborators (BLAST hit lookup, the aligner, codeml distance
  estimation, genome fasta files) are parameters (`Oracles`, `Genome`),
  faithful to the collaborator contracts the program assumes.
* Fallible code is modelled in `Except RsdError`; the codeml
  "no rst data" condition (`paml_error`) is the recoverable `DistRes.pamlError`.
-/

deriving instance DecidableEq for Except

-- `Rat.mul`, `Rat.inv` and `Rat.div` are `@[irreducible]`, which blocks the
-- evaluation of concrete rational arithmetic inside `decide`; the kernel
-- itself reduces them fine, so restoring reducibility is safe here.
set_option allowUnsafeReducibility true
attribute [semireducible] Rat.mul Rat.inv Rat.div

namespace Rsd

/-- Errors that abort the computation of a genome pair (uncaught Python
exceptions in the original program). -/
inductive RsdError where
  | zeroDivision : RsdError
  | unpack : RsdError
  | alignFail : RsdError
  | distFatal : RsdError
  deriving DecidableEq

/-- Result of one invocation of the maximum-likelihood distance collaborator
(`getDistanceForAlignedSeqPair` / `pamlGetDistance`): a distance, the
recoverable `paml_error` condition (no rst data), or any other fatal failure. -/
inductive DistRes where
  | ok : ℚ → DistRes
  | pamlError : DistRes
  | fatal : DistRes
  deriving DecidableEq

/-- The characters stripped by Python `str.strip()`. -/
def isPyWs (c : Char) : Bool :=
  c == ' ' || c == '\t' || c == '\n' || c == '\r' || c == Char.ofNat 11 || c == Char.ofNat 12

/-- Python `s.strip()` on a string modelled as a char list. -/
def pyStrip (l : List Char) : List Char :=
  ((l.dropWhile isPyWs).reverse.dropWhile isPyWs).reverse

/-- The gap character test used throughout (`'-'`). -/
def isDash (c : Char) : Bool := c == '-'

/-- Gap density of an aligned sequence: `seq.count('-') / float(len(seq))`. -/
def gapDensity (s : List Char) : ℚ :=
  (s.count '-' : ℚ) / (s.length : ℚ)

/-- Result of `dashlen_check`.  The source returns the 2-tuple `(0, 0)` when
the whole (stripped) sequence is gaps, and the 3-tuple
`(frontTrim, endTrim, trimmedSeqDivergence)` otherwise; the two arities are the
two constructors. -/
inductive DashlenResult where
  | allGaps : DashlenResult
  | trimmed : ℕ → ℕ → ℚ → DashlenResult
  deriving DecidableEq

/-- `dashlen_check(seq)` from rsd.py: strip the sequence, split it as
leading gap run / core / trailing gap run (the regex `^(-*)(.*?)(-*)$`),
return `(0, 0)` when the core is empty, otherwise zero out trims shorter
than 10 and report the gap density of the core. -/
def dashlen_check (seq : List Char) : DashlenResult :=
  let s := pyStrip seq
  let frontDashes := s.takeWhile isDash
  let rest := s.dropWhile isDash
  let core := (rest.reverse.dropWhile isDash).reverse
  let endRun := rest.length - core.length
  if core.isEmpty then DashlenResult.allGaps
  else
    DashlenResult.trimmed
      (if frontDashes.length < 10 then 0 else frontDashes.length)
      (if endRun < 10 then 0 else endRun)
      ((core.count '-' : ℚ) / (core.length : ℚ))

/-- The data captured by the closure `divergencePredicate` in
`getGoodDivergenceAlignedTrimmedSeqPair`: the least-diverged aligned sequence
and its gap density, the trims and the trimmed divergence of the most-diverged
aligned sequence. -/
structure DivPred where
  leastSeq : List Char
  leastDiv : ℚ
  startTrim : ℕ
  endTrim : ℕ
  trimDivergence : ℚ
  deriving DecidableEq

/-- `divergencePredicate(divergenceThreshold)` from rsd.py: too diverged iff
the least-diverged sequence is nonempty with gap density strictly above the
threshold, or some trim was applied and the trimmed divergence is at least the
threshold. -/
def evalDivPred (p : DivPred) (t : ℚ) : Bool :=
  (!p.leastSeq.isEmpty && decide (p.leastDiv > t)) ||
    ((!decide (p.startTrim = 0) || !decide (p.endTrim = 0)) && decide (p.trimDivergence ≥ t))

/-- Python lexicographic comparison of two char lists (byte strings). -/
def charListLt : List Char → List Char → Bool
  | [], [] => false
  | [], _ :: _ => true
  | _ :: _, [] => false
  | a :: as, b :: bs =>
    if a.toNat < b.toNat then true
    else if b.toNat < a.toNat then false
    else charListLt as bs

/-- The sort key built for each aligned sequence in
`getGoodDivergenceAlignedTrimmedSeqPair`: `(dashCount, div, id, seq)`. -/
def mkDivKey (p : String × List Char) : ℕ × ℚ × String × List Char :=
  (p.2.count '-', gapDensity p.2, p.1, p.2)

/-- Python lexicographic `<` on the `(dashCount, div, id, seq)` sort keys. -/
def divKeyLt (a b : ℕ × ℚ × String × List Char) : Bool :=
  decide (a.1 < b.1) ||
    (decide (a.1 = b.1) && (decide (a.2.1 < b.2.1) ||
      (decide (a.2.1 = b.2.1) && (charListLt a.2.2.1.data b.2.2.1.data ||
        (decide (a.2.2.1 = b.2.2.1) && charListLt a.2.2.2 b.2.2.2)))))

/-- Python slice `l[start:stop]` where `stop` may be negative (counted from the
end, as in `seq[startTrim:(len(seq)-endTrim)]`). -/
def pySlice (l : List Char) (start : ℕ) (stop : ℤ) : List Char :=
  let stopN : ℕ := if stop < 0 then ((l.length : ℤ) + stop).toNat else min stop.toNat l.length
  (l.take stopN).drop start

/-- The value returned by `getGoodDivergenceAlignedTrimmedSeqPair`: the two
id/aligned-trimmed-sequence pairs (in input order) and the divergence
predicate. -/
structure AlignedTrimmedPair where
  first : String × List Char
  second : String × List Char
  pred : DivPred
  deriving DecidableEq

/-- The post-alignment part of `getGoodDivergenceAlignedTrimmedSeqPair`
(lines computing dash counts, sorting the two sequences by
`(dashCount, div, id, seq)`, running `dashlen_check` on the most diverged one,
building `divergencePredicate` and trimming both sequences).  A zero-length
aligned sequence raises `ZeroDivisionError` when its density is computed; an
all-gaps most-diverged sequence makes the 3-way unpacking of the 2-tuple
returned by `dashlen_check` raise `ValueError` (`RsdError.unpack`). -/
def processAlignedPair (p1 p2 : String × List Char) : Except RsdError AlignedTrimmedPair :=
  if p1.2.length = 0 ∨ p2.2.length = 0 then Except.error RsdError.zeroDivision
  else
    let pair := if divKeyLt (mkDivKey p2) (mkDivKey p1) then (p2, p1) else (p1, p2)
    match dashlen_check pair.2.2 with
    | DashlenResult.allGaps => Except.error RsdError.unpack
    | DashlenResult.trimmed st et td =>
      Except.ok
        ⟨(p1.1, pySlice p1.2 st ((p1.2.length : ℤ) - (et : ℤ))),
         (p2.1, pySlice p2.2 st ((p2.2.length : ℤ) - (et : ℤ))),
         ⟨pair.1.2, gapDensity pair.1.2, st, et, td⟩⟩

/-- Stable insertion of an element into a key-sorted list: the inserted
element goes before every later element of equal key. -/
def insertByKey {α : Type} (key : α → ℚ) (x : α) : List α → List α
  | [] => [x]
  | y :: ys => if key x ≤ key y then x :: y :: ys else y :: insertByKey key x ys

/-- Stable ascending sort by a rational key — extensionally the same list as
Python's stable `sorted(dicts, key=...)`. -/
def sortByKey {α : Type} (key : α → ℚ) : List α → List α
  | [] => []
  | x :: xs => insertByKey key x (sortByKey key xs)

/-- `minimumDicts(dicts, key)` from rsd.py: stable-sort by the key and keep
every entry whose key equals the minimum key. -/
def minimumDicts {α : Type} (key : α → ℚ) (dicts : List α) : List α :=
  match sortByKey key dicts with
  | [] => []
  | m :: rest => (m :: rest).filter (fun d => decide (key d = key m))

/-- `MAX_HITS` from rsd.py. -/
def MAX_HITS : ℕ := 3

/-- Python `max` over a nonempty list of floats (as built by the generator
expressions `max(float(evalue) for div, evalue in divEvalues)`); the empty
case never occurs in the program and is given a junk value. -/
def pyMax : List ℚ → ℚ
  | [] => 0
  | x :: xs => xs.foldl max x

/-- The hit-scanning loop of `getGoodEvalueHits`: stop once `MAX_HITS` hits
have been accepted, accept a hit (paired with its sequence) when its evalue is
strictly below the threshold. -/
def goodHitsLoop (getSeqFunc : String → List Char) (evalue : ℚ) :
    List (String × ℚ) → ℕ → List (String × List Char × ℚ)
  | [], _ => []
  | (hitId, hitEvalue) :: rest, hitCount =>
    if hitCount ≥ MAX_HITS then []
    else if hitEvalue < evalue then
      (hitId, getSeqFunc hitId, hitEvalue) :: goodHitsLoop getSeqFunc evalue rest (hitCount + 1)
    else goodHitsLoop getSeqFunc evalue rest hitCount

/-- `getGoodEvalueHits(seqId, seq, getHitsFunc, getSeqFunc, evalue)` from
rsd.py: look the sequence up in the hits collaborator (which may report no
entry at all) and keep at most `MAX_HITS` hits strictly below the evalue. -/
def getGoodEvalueHits (getHitsFunc : String → List Char → Option (List (String × ℚ)))
    (getSeqFunc : String → List Char) (seqId : String) (seq : List Char) (evalue : ℚ) :
    List (String × List Char × ℚ) :=
  match getHitsFunc seqId seq with
  | none => []
  | some hits => goodHitsLoop getSeqFunc evalue hits 0

/-- Modelled from the spec: the external collaborators consumed by the core
(§6 of the spec) — genome sequence lookup, forward/reverse hit lookup, the
pairwise aligner (which echoes the two input ids, returning the two aligned
sequences or failing fatally) and the maximum-likelihood distance estimator.
Their implementations (fasta/blast/kalign/codeml wrappers) are outside the
core being verified. -/
structure Oracles where
  getQuerySeq : String → List Char
  getSubjectSeq : String → List Char
  getForwardHits : String → List Char → Option (List (String × ℚ))
  getReverseHits : String → List Char → Option (List (String × ℚ))
  align : String → List Char → String → List Char → Except RsdError (List Char × List Char)
  getDistance : String → List Char → String → List Char → DistRes

/-- `getGoodDivergenceAlignedTrimmedSeqPair` from rsd.py: align the two
sequences through the collaborator, then sort/check-divergence/trim. -/
def getGoodDivergenceAlignedTrimmedSeqPair (O : Oracles) (seqId : String) (seq : List Char)
    (hitSeqId : String) (hitSeq : List Char) : Except RsdError AlignedTrimmedPair := do
  let r ← O.align seqId seq hitSeqId hitSeq
  processAlignedPair (seqId, r.1) (hitSeqId, r.2)

/-- A forward hit record before its distance is resolved (the dict built at
the start of `_computeOrthologsSub`, after the alignment fields are added). -/
structure HitData0 where
  hitId : String
  hitSeq : List Char
  hitEvalue : ℚ
  alignedQuerySeq : List Char
  alignedHitSeq : List Char
  pred : DivPred
  deriving DecidableEq

/-- A forward hit record with its resolved distance. -/
structure HitData where
  hitId : String
  hitSeq : List Char
  hitEvalue : ℚ
  alignedQuerySeq : List Char
  alignedHitSeq : List Char
  pred : DivPred
  distance : ℚ
  deriving DecidableEq

/-- Attach a resolved distance to a forward hit record. -/
def attachDistance (c : HitData0) (d : ℚ) : HitData :=
  ⟨c.hitId, c.hitSeq, c.hitEvalue, c.alignedQuerySeq, c.alignedHitSeq, c.pred, d⟩

/-- The distance-resolution loop shared by the forward (lines 529-537) and
reverse (lines 584-592) stages of `_computeOrthologsSub`: resolve each
candidate's distance in order, silently dropping candidates for which the
estimator signals the recoverable `paml_error`, and aborting the whole
computation on any other failure. -/
def resolveDistancesGen {α β : Type} (gd : α → DistRes) (att : α → ℚ → β) :
    List α → Except RsdError (List β)
  | [] => Except.ok []
  | c :: rest =>
    match gd c with
    | DistRes.ok d =>
      match resolveDistancesGen gd att rest with
      | Except.ok l => Except.ok (att c d :: l)
      | Except.error e => Except.error e
    | DistRes.pamlError => resolveDistancesGen gd att rest
    | DistRes.fatal => Except.error RsdError.distFatal

/-- The forward alignment loop of `_computeOrthologsSub` (lines 520-524):
align the query with each hit and record the aligned sequences and the
divergence predicate. -/
def alignForward (O : Oracles) (queryId : String) (querySeq : List Char) :
    List (String × List Char × ℚ) → Except RsdError (List HitData0)
  | [] => Except.ok []
  | (hitId, hitSeq, hitEvalue) :: rest => do
    let r ← getGoodDivergenceAlignedTrimmedSeqPair O queryId querySeq hitId hitSeq
    let l ← alignForward O queryId querySeq rest
    Except.ok (⟨hitId, hitSeq, hitEvalue, r.first.2, r.second.2, r.pred⟩ :: l)

/-- Resolve distances for the forward candidates of one query
(`getDistanceForAlignedSeqPair(queryId, alignedQuerySeq, hitId, alignedHitSeq)`). -/
def forwardResolve (O : Oracles) (queryId : String) (l : List HitData0) :
    Except RsdError (List HitData) :=
  resolveDistancesGen
    (fun c => O.getDistance queryId c.alignedQuerySeq c.hitId c.alignedHitSeq)
    attachDistance l

/-- The per-threshold filter of `_computeOrthologsSub` (lines 546-549): keep
candidates whose evalue is strictly below the threshold's evalue and which the
divergence predicate does not reject at the threshold's divergence. -/
def goodHitDatas (cands : List HitData) (div evalue : ℚ) : List HitData :=
  cands.filter (fun hd => decide (hd.hitEvalue < evalue) && !evalDivPred hd.pred div)

/-- The per-threshold forward selection of `_computeOrthologsSub`
(lines 546-551): filter by the threshold, then keep all minimum-distance
candidates. -/
def selectMinimumHitDatas (cands : List HitData) (div evalue : ℚ) : List HitData :=
  minimumDicts (fun hd => hd.distance) (goodHitDatas cands div evalue)

/-- Insert a winning hit into the `minimumHitIdToDivEvalues` /
`minimumHitIdToHitData` accumulator: append the threshold to the hit id's list
and overwrite the stored hit data. -/
def insertWinner (hd : HitData) (de : ℚ × ℚ) :
    List (String × List (ℚ × ℚ) × HitData) → List (String × List (ℚ × ℚ) × HitData)
  | [] => [(hd.hitId, [de], hd)]
  | (hid, des, d) :: rest =>
    if hid = hd.hitId then (hid, des ++ [de], hd) :: rest
    else (hid, des, d) :: insertWinner hd de rest

/-- The winner-aggregation loop of `_computeOrthologsSub` (lines 543-555):
for each threshold, select the minimum-distance candidates and record, per
winning hit id, the thresholds that selected it. -/
def collectWinners (cands : List HitData) :
    List (ℚ × ℚ) → List (String × List (ℚ × ℚ) × HitData) →
      List (String × List (ℚ × ℚ) × HitData)
  | [], acc => acc
  | de :: rest, acc =>
    collectWinners cands rest
      ((selectMinimumHitDatas cands de.1 de.2).foldl (fun a hd => insertWinner hd de a) acc)

/-- A reverse hit record before its distance is resolved. -/
structure RevHitData0 where
  revHitId : String
  revHitSeq : List Char
  revHitEvalue : ℚ
  alignedHitSeq : List Char
  alignedRevHitSeq : List Char
  pred : DivPred
  deriving DecidableEq

/-- A reverse hit record with its resolved distance. -/
structure RevHitData where
  revHitId : String
  revHitSeq : List Char
  revHitEvalue : ℚ
  alignedHitSeq : List Char
  alignedRevHitSeq : List Char
  pred : DivPred
  distance : ℚ
  deriving DecidableEq

/-- Attach a resolved distance to a reverse hit record. -/
def attachRevDistance (r : RevHitData0) (d : ℚ) : RevHitData :=
  ⟨r.revHitId, r.revHitSeq, r.revHitEvalue, r.alignedHitSeq, r.alignedRevHitSeq, r.pred, d⟩

/-- The reverse-hit gathering of `_computeOrthologsSub` (lines 563-567): look
up reverse hits for the winning hit, bounded by the loosest evalue among the
thresholds that selected it. -/
def revGather (O : Oracles) (sel : List (ℚ × ℚ)) (hitId : String) (hitSeq : List Char) :
    List (String × List Char × ℚ) :=
  getGoodEvalueHits O.getReverseHits O.getQuerySeq hitId hitSeq
    (pyMax (sel.map (fun de => de.2)))

/-- The reverse alignment loop of `_computeOrthologsSub` (lines 571-576). -/
def revAlign (O : Oracles) (hitId : String) (hitSeq : List Char) :
    List (String × List Char × ℚ) → Except RsdError (List RevHitData0)
  | [] => Except.ok []
  | (revHitId, revHitSeq, revHitEvalue) :: rest => do
    let r ← getGoodDivergenceAlignedTrimmedSeqPair O hitId hitSeq revHitId revHitSeq
    let l ← revAlign O hitId hitSeq rest
    Except.ok (⟨revHitId, revHitSeq, revHitEvalue, r.first.2, r.second.2, r.pred⟩ :: l)

/-- The reverse divergence filter of `_computeOrthologsSub` (line 578): filter
by the loosest divergence among the thresholds that selected the winner. -/
def revDivFilter (sel : List (ℚ × ℚ)) (l : List RevHitData0) : List RevHitData0 :=
  l.filter (fun r => !evalDivPred r.pred (pyMax (sel.map (fun de => de.1))))

/-- Resolve distances for the reverse candidates of one winner
(`getDistanceForAlignedSeqPair(hitId, alignedHitSeq, revHitId, alignedRevHitSeq)`). -/
def revResolve (O : Oracles) (hitId : String) (l : List RevHitData0) :
    Except RsdError (List RevHitData) :=
  resolveDistancesGen
    (fun r => O.getDistance hitId r.alignedHitSeq r.revHitId r.alignedRevHitSeq)
    attachRevDistance l

/-- The per-threshold reverse filter of `_computeOrthologsSub`
(lines 600-603). -/
def goodRevHitDatas (revCands : List RevHitData) (div evalue : ℚ) : List RevHitData :=
  revCands.filter (fun r => decide (r.revHitEvalue < evalue) && !evalDivPred r.pred div)

/-- The per-threshold reciprocity check and emission of `_computeOrthologsSub`
(lines 597-607): take the minimum-distance reverse candidates passing the
threshold; if the original query id is among them, emit one
`(queryId, hitId, forwardDistance)` record for the threshold. -/
def emitForThreshold (queryId hitId : String) (forwardDistance : ℚ)
    (revCands : List RevHitData) (de : ℚ × ℚ) : List ((ℚ × ℚ) × (String × String × ℚ)) :=
  if queryId ∈ (minimumDicts (fun r => r.distance)
      (goodRevHitDatas revCands de.1 de.2)).map (fun r => r.revHitId) then
    [(de, (queryId, hitId, forwardDistance))]
  else []

/-- The per-winner reverse stage of `_computeOrthologsSub` (lines 559-607):
gather reverse hits bounded by the winner's loosest evalue; skip the winner
(before any alignment) when the query id is not among the reverse hit ids;
align, filter by the loosest divergence, re-check the query id's presence,
resolve distances, and run the per-threshold reciprocity checks. -/
def processWinner (O : Oracles) (sel : List (ℚ × ℚ)) (queryId : String) (hd : HitData) :
    Except RsdError (List ((ℚ × ℚ) × (String × String × ℚ))) :=
  if queryId ∈ (revGather O sel hd.hitId hd.hitSeq).map (fun x => x.1) then
    match revAlign O hd.hitId hd.hitSeq (revGather O sel hd.hitId hd.hitSeq) with
    | Except.error e => Except.error e
    | Except.ok a0 =>
      if queryId ∈ (revDivFilter sel a0).map (fun r => r.revHitId) then
        match revResolve O hd.hitId (revDivFilter sel a0) with
        | Except.error e => Except.error e
        | Except.ok a2 =>
          Except.ok (sel.flatMap (emitForThreshold queryId hd.hitId hd.distance a2))
      else Except.ok []
  else Except.ok []

/-- Iterate the reverse stage over all winners of one query (the
`for hitId in minimumHitIdToHitData` loop, in first-insertion order). -/
def processWinners (O : Oracles) (queryId : String) :
    List (String × List (ℚ × ℚ) × HitData) →
      Except RsdError (List ((ℚ × ℚ) × (String × String × ℚ)))
  | [] => Except.ok []
  | (_, sel, hd) :: rest => do
    let r ← processWinner O sel queryId hd
    let l ← processWinners O queryId rest
    Except.ok (r ++ l)

/-- The per-query body of `_computeOrthologsSub` (lines 513-607): gather
forward hits at the loosest evalue, align them, filter at the loosest
divergence, resolve distances, aggregate per-threshold minimum-distance
winners, and run the reverse stage for each winner. -/
def processQuery (O : Oracles) (divEvalues : List (ℚ × ℚ)) (queryId : String) :
    Except RsdError (List ((ℚ × ℚ) × (String × String × ℚ))) := do
  let querySeq := O.getQuerySeq queryId
  let maxEvalue := pyMax (divEvalues.map (fun de => de.2))
  let maxDiv := pyMax (divEvalues.map (fun de => de.1))
  let fwdHits := getGoodEvalueHits O.getForwardHits O.getSubjectSeq queryId querySeq maxEvalue
  let c0 ← alignForward O queryId querySeq fwdHits
  let c1 := c0.filter (fun c => !evalDivPred c.pred maxDiv)
  let cands ← forwardResolve O queryId c1
  processWinners O queryId (collectWinners cands divEvalues [])

/-- `_computeOrthologsSub` over the query sequence ids.  The result is the
`divEvalueToOrthologs` mapping flattened to a list of
`(threshold, (queryId, hitId, distance))` records in emission order (the list
for a threshold is the subsequence tagged with it). -/
def computeOrthologsSub (O : Oracles) (divEvalues : List (ℚ × ℚ)) :
    List String → Except RsdError (List ((ℚ × ℚ) × (String × String × ℚ)))
  | [] => Except.ok []
  | q :: rest => do
    let r ← processQuery O divEvalues q
    let l ← computeOrthologsSub O divEvalues rest
    Except.ok (r ++ l)

/-- Modelled from the spec: a genome fasta file, reduced to what the core
uses — its sequence ids (`fasta.readIds`, whose count is
`fasta.numSeqsInFastaDb`) and sequence lookup (`makeGetSeqForId`). -/
structure Genome where
  seqIds : List String
  getSeq : String → List Char

/-- Exchange the first two fields of an emitted ortholog record (the un-swap
step of `computeOrthologs`). -/
def swapRecord (rec : (ℚ × ℚ) × (String × String × ℚ)) : (ℚ × ℚ) × (String × String × ℚ) :=
  (rec.1, (rec.2.2.1, rec.2.1, rec.2.2.2))

/-- Bundle two genomes and the four collaborators into the oracle record used
by `_computeOrthologsSub`. -/
def mkOracles (queryG subjectG : Genome)
    (fh rh : String → List Char → Option (List (String × ℚ)))
    (al : String → List Char → String → List Char → Except RsdError (List Char × List Char))
    (gd : String → List Char → String → List Char → DistRes) : Oracles :=
  ⟨queryG.getSeq, subjectG.getSeq, fh, rh, al, gd⟩

/-- Python truthiness of the `querySeqIds` argument (`None` or `[]` are
falsy). -/
def querySeqIdsFalsy : Option (List String) → Bool
  | none => true
  | some [] => true
  | some (_ :: _) => false

/-- `computeOrthologs` from rsd.py.  `genomeSwapOptimization` is the constant
the source fixes to `True`; it is a parameter here so that the behaviour with
and without the optimization can be compared.  When no query subset is given,
the optimization is on and the subject genome has fewer sequences, the roles
of the genomes and of the forward/reverse hit collaborators are swapped, the
sub-computation runs on the swapped roles, and each emitted record has its
first two fields exchanged back. -/
def computeOrthologs (queryG subjectG : Genome) (divEvalues : List (ℚ × ℚ))
    (getForwardHits getReverseHits : String → List Char → Option (List (String × ℚ)))
    (al : String → List Char → String → List Char → Except RsdError (List Char × List Char))
    (gd : String → List Char → String → List Char → DistRes)
    (querySeqIds : Option (List String)) (genomeSwapOptimization : Bool) :
    Except RsdError (List ((ℚ × ℚ) × (String × String × ℚ))) :=
  if querySeqIdsFalsy querySeqIds && genomeSwapOptimization &&
      decide (subjectG.seqIds.length < queryG.seqIds.length) then
    match computeOrthologsSub (mkOracles subjectG queryG getReverseHits getForwardHits al gd)
        divEvalues subjectG.seqIds with
    | Except.error e => Except.error e
    | Except.ok l => Except.ok (l.map swapRecord)
  else
    let ids := match querySeqIds with
      | some (q :: qs) => q :: qs
      | _ => queryG.seqIds
    computeOrthologsSub (mkOracles queryG subjectG getForwardHits getReverseHits al gd)
      divEvalues ids

/-! ### The orthData serialization format (`rsd/orthutil.py`) -/

/-- A params row: `(qdb, sdb, div, evalue)`, four text fields. -/
abbrev OrthParams := List Char × List Char × List Char × List Char

/-- An ortholog row: `(queryId, subjectId, distance)`, three text fields. -/
abbrev OrthRow := List Char × List Char × List Char

/-- An orthData: a params tuple and its ortholog rows. -/
abbrev OrthData := OrthParams × List OrthRow

instance instDecEqOrthData : DecidableEq OrthData := fun a b => by
  exact instDecidableEqProd a b

/-- The body (without newline) of the `PA\t{}\t{}\t{}\t{}` params row. -/
def paBody (p : OrthParams) : List Char :=
  'P' :: 'A' :: '\t' :: (p.1 ++ '\t' :: (p.2.1 ++ '\t' :: (p.2.2.1 ++ '\t' :: p.2.2.2)))

/-- The `PA\t{}\t{}\t{}\t{}\n` line written by `orthDatasToStream`. -/
def paLine (p : OrthParams) : List Char := paBody p ++ ['\n']

/-- The body (without newline) of the `OR\t{}\t{}\t{}` ortholog row. -/
def orBody (o : OrthRow) : List Char :=
  'O' :: 'R' :: '\t' :: (o.1 ++ '\t' :: (o.2.1 ++ '\t' :: o.2.2))

/-- The `OR\t{}\t{}\t{}\n` line written by `orthDatasToStream`. -/
def orLine (o : OrthRow) : List Char := orBody o ++ ['\n']

/-- The `//\n` end-marker line written by `orthDatasToStream`. -/
def endLine : List Char := ['/', '/', '\n']

/-- `orthDatasToStream` from orthutil.py: for each orthData write a params
row, then its ortholog rows, then the end marker. -/
def orthDatasToStream : List OrthData → List Char
  | [] => []
  | d :: rest => paLine d.1 ++ (d.2.flatMap orLine ++ (endLine ++ orthDatasToStream rest))

/-- Split a character stream into lines the way Python line iteration does:
each yielded line keeps its trailing newline; a last chunk with no newline is
yielded as-is. -/
def splitLinesAux : List Char → List Char → List (List Char)
  | [], acc => if acc.isEmpty then [] else [acc.reverse]
  | c :: rest, acc =>
    if c == '\n' then (acc.reverse ++ ['\n']) :: splitLinesAux rest []
    else splitLinesAux rest (c :: acc)

/-- Split a character stream into lines (Python `for line in handle`). -/
def splitLines (s : List Char) : List (List Char) := splitLinesAux s []

/-- Python `line.split('\t')`: split at every tab, keeping empty parts. -/
def splitTabAux : List Char → List Char → List (List Char)
  | [], acc => [acc.reverse]
  | c :: rest, acc =>
    if c == '\t' then acc.reverse :: splitTabAux rest []
    else splitTabAux rest (c :: acc)

/-- Python `s.split('\t')` on a char list. -/
def splitTab (s : List Char) : List (List Char) := splitTabAux s []

/-- Python `line.startswith(xy)` for a two-character marker. -/
def startsWith2 (l : List Char) (a b : Char) : Bool :=
  match l with
  | c :: d :: _ => c == a && d == b
  | _ => false

/-- The line loop of `orthDatasFromStreamGen` from orthutil.py, carrying the
current `(params, orthologs)` bindings and the orthDatas yielded so far.  A
`PA` line rebinds both; an `OR` line appends to the current ortholog list (a
`NameError` — here `Except.error` — if no `PA` line bound it yet, and a
`ValueError` if the arity after splitting on tabs is wrong); a `//` line
yields the current pair; any other line is ignored. -/
def parseOrthLines : List (List Char) → Option (OrthParams × List OrthRow) → List OrthData →
    Except Unit (List OrthData)
  | [], _, acc => Except.ok acc
  | line :: rest, st, acc =>
    if startsWith2 line 'P' 'A' then
      match splitTab (pyStrip line) with
      | [_, qdb, sdb, div, evalue] => parseOrthLines rest (some ((qdb, sdb, div, evalue), [])) acc
      | _ => Except.error ()
    else if startsWith2 line 'O' 'R' then
      match st with
      | none => Except.error ()
      | some (params, orths) =>
        match splitTab (pyStrip line) with
        | [_, qid, sid, dist] => parseOrthLines rest (some (params, orths ++ [(qid, sid, dist)])) acc
        | _ => Except.error ()
    else if startsWith2 line '/' '/' then
      match st with
      | none => Except.error ()
      | some pair => parseOrthLines rest st (acc ++ [pair])
    else parseOrthLines rest st acc

/-- `orthDatasFromStreamGen` from orthutil.py, fully consumed (the list of all
yielded orthDatas, or an error when the generator raises). -/
def orthDatasFromStream (s : List Char) : Except Unit (List OrthData) :=
  parseOrthLines (splitLines s) none []

/-- A field that survives the line format: it contains no tab (which would
change the split arity) and no newline (which would break the line). -/
def goodField (f : List Char) : Bool :=
  f.all (fun c => !(c == '\t') && !(c == '\n'))

/-- The last field of a line additionally must be nonempty and must not end in
a whitespace character, or Python's `line.strip()` would alter it. -/
def goodLastField (f : List Char) : Bool :=
  goodField f && !f.isEmpty && !isPyWs (f.getLastD ' ')

/-- Well-formedness of a params tuple for the serialization format. -/
def wfParams (p : OrthParams) : Bool :=
  goodField p.1 && goodField p.2.1 && goodField p.2.2.1 && goodLastField p.2.2.2

/-- Well-formedness of an ortholog row for the serialization format. -/
def wfRow (o : OrthRow) : Bool :=
  goodField o.1 && goodField o.2.1 && goodLastField o.2.2

/-- Well-formedness of an orthData for the serialization format. -/
def wfOrthData (d : OrthData) : Bool :=
  wfParams d.1 && d.2.all wfRow

/-! ### Concrete data used by witnesses and counterexamples -/

/-- A trivially non-rejecting divergence predicate used in witnesses. -/
def wPred : DivPred := ⟨['A'], 0, 0, 0, 0⟩

/-- A forward candidate used in witnesses (distance 1). -/
def hdA : HitData := ⟨"h1", ['A'], 1/4, ['A'], ['A'], wPred, 1⟩

/-- A forward candidate used in witnesses (same distance 1: a tie). -/
def hdB : HitData := ⟨"h2", ['A'], 1/4, ['A'], ['A'], wPred, 1⟩

/-- A forward candidate used in witnesses that fails the evalue filter. -/
def hdC : HitData := ⟨"h3", ['A'], 3/4, ['A'], ['A'], wPred, 0⟩

/-- A forward candidate (without distance) used in the C10 witness. -/
def hd0A : HitData0 := ⟨"h1", ['A'], 1/4, ['A'], ['A'], wPred⟩

/-- A distance oracle used in the C8 witness: the first candidate resolves,
the second signals the recoverable `paml_error`. -/
def wGd : ℕ → DistRes := fun n => if n = 0 then DistRes.ok 5 else DistRes.pamlError

/-- A distance oracle used in the C8 witness: the second candidate fails
fatally. -/
def wGd2 : ℕ → DistRes := fun n => if n = 0 then DistRes.ok 5 else DistRes.fatal

/-- Candidate/distance pairing used in the C8 witness. -/
def wAtt : ℕ → ℚ → ℕ × ℚ := fun n d => (n, d)

/-- An aligner oracle that echoes its input sequences (both inputs here are
ungapped and of equal length, so this satisfies the aligner contract). -/
def c4Align : String → List Char → String → List Char →
    Except RsdError (List Char × List Char) :=
  fun _ s1 _ s2 => Except.ok (s1, s2)

/-- A direction-sensitive distance oracle.  The collaborator contract maps an
ordered pair of aligned sequences to a distance and fixes no symmetry, so this
is a legal estimator: a pair whose first id is `q1` resolves to 1, any other
pair to 2. -/
def c4Dist : String → List Char → String → List Char → DistRes :=
  fun a _ _ _ => if a = "q1" then DistRes.ok 1 else DistRes.ok 2

/-- Query genome for the C4 counterexample: two sequences. -/
def c4QueryGenome : Genome := ⟨["q1", "q2"], fun _ => ['M', 'K']⟩

/-- Subject genome for the C4 counterexample: one sequence (so the swap
optimization triggers). -/
def c4SubjectGenome : Genome := ⟨["s1"], fun _ => ['M', 'K']⟩

/-- Forward hits for the C4 counterexample: `q1` hits `s1`. -/
def c4Fh : String → List Char → Option (List (String × ℚ)) :=
  fun i _ => if i = "q1" then some [("s1", 1/4)] else none

/-- Reverse hits for the C4 counterexample: `s1` hits `q1`. -/
def c4Rh : String → List Char → Option (List (String × ℚ)) :=
  fun i _ => if i = "s1" then some [("q1", 1/4)] else none

/-- The single threshold of the C4 counterexample. -/
def c4De : List (ℚ × ℚ) := [(1, 1/2)]

/-- The lines a single orthData contributes to the stream. -/
def orthDataLines (d : OrthData) : List (List Char) :=
  paLine d.1 :: (d.2.map orLine ++ [endLine])

/-- Concrete orthDatas for the C9 witness: one group with a row and one group
with no ortholog rows. -/
def c9Ds : List OrthData :=
  [((['L', 'A', 'C'], ['Y', 'E', 'A'], ['0', '.', '2'], ['1', 'e', '-', '5']),
      [(['Q', '7'], ['A', '6'], ['1', '.', '7'])]),
   ((['M', 'Y', 'C'], ['M', 'Y', 'H'], ['0', '.', '2'], ['1', 'e', '-', '5']), [])]

/-- Oracles for the C5 witness: no reverse hits at all. -/
def c5O : Oracles :=
  ⟨fun _ => ['M'], fun _ => ['M'], fun _ _ => none, fun _ _ => none, c4Align,
    fun _ _ _ _ => DistRes.ok 1⟩

/-- The concrete result of the C6 witness alignment. -/
def c6R : AlignedTrimmedPair :=
  ⟨("a", ['A', 'B', '-', '-']), ("b", ['A', '-', '-', '-']),
    ⟨['A', 'B', '-', '-'], 1/2, 0, 0, 0⟩⟩

/-- The concrete C7 witness sequence: a 12-gap leading run, core `A-B`, and a
2-gap trailing run. -/
def c7S : List Char :=
  List.replicate 12 '-' ++ ['A', '-', 'B'] ++ ['-', '-']

/-! ### Lemmas about `sortByKey` and `minimumDicts` -/

theorem insertByKey_perm {α : Type} (key : α → ℚ) (x : α) (l : List α) :
    (insertByKey key x l).Perm (x :: l) := by
  induction l with
  | nil => exact List.Perm.refl _
  | cons y ys ih =>
    rw [insertByKey]
    by_cases h : key x ≤ key y
    · rw [if_pos h]
    · rw [if_neg h]
      exact List.Perm.trans (List.Perm.cons y ih) (List.Perm.swap x y ys)

theorem sortByKey_perm {α : Type} (key : α → ℚ) (l : List α) :
    (sortByKey key l).Perm l := by
  induction l with
  | nil => exact List.Perm.refl _
  | cons x xs ih =>
    rw [sortByKey]
    exact List.Perm.trans (insertByKey_perm key x (sortByKey key xs)) (List.Perm.cons x ih)

theorem insertByKey_sorted {α : Type} (key : α → ℚ) (x : α) (l : List α)
    (hs : List.Pairwise (fun a b => key a ≤ key b) l) :
    List.Pairwise (fun a b => key a ≤ key b) (insertByKey key x l) := by
  induction l with
  | nil => simp [insertByKey]
  | cons y ys ih =>
    rw [insertByKey]
    rcases List.pairwise_cons.mp hs with ⟨hy, hys⟩
    by_cases h : key x ≤ key y
    · rw [if_pos h]
      refine List.pairwise_cons.mpr ⟨?_, hs⟩
      intro b hb
      rcases List.mem_cons.mp hb with h1 | h1
      · subst h1; exact h
      · exact le_trans h (hy b h1)
    · rw [if_neg h]
      refine List.pairwise_cons.mpr ⟨?_, ih hys⟩
      intro b hb
      rcases (insertByKey_perm key x ys).mem_iff.mp hb with h1
      rcases List.mem_cons.mp h1 with h2 | h2
      · subst h2; exact le_of_lt (lt_of_not_le h)
      · exact hy b h2

theorem sortByKey_sorted {α : Type} (key : α → ℚ) (l : List α) :
    List.Pairwise (fun a b => key a ≤ key b) (sortByKey key l) := by
  induction l with
  | nil => simp [sortByKey]
  | cons x xs ih =>
    rw [sortByKey]
    exact insertByKey_sorted key x (sortByKey key xs) ih

theorem minimumDicts_nil {α : Type} (key : α → ℚ) : minimumDicts key [] = [] := by
  simp [minimumDicts, sortByKey]

theorem minimumDicts_mem {α : Type} (key : α → ℚ) (l : List α) (x : α) :
    x ∈ minimumDicts key l ↔ x ∈ l ∧ ∀ y ∈ l, key x ≤ key y := by
  unfold minimumDicts
  rcases h : sortByKey key l with _ | ⟨m, rest⟩
  · have hp := sortByKey_perm key l
    rw [h] at hp
    have hl : l = [] := hp.symm.eq_nil
    subst hl
    simp
  · have hp := sortByKey_perm key l
    rw [h] at hp
    have hs := sortByKey_sorted key l
    rw [h] at hs
    have hmins : ∀ y ∈ rest, key m ≤ key y := (List.pairwise_cons.mp hs).1
    have hmin : ∀ y ∈ l, key m ≤ key y := by
      intro y hy
      rcases List.mem_cons.mp (hp.mem_iff.mpr hy) with h1 | h1
      · subst h1; exact le_refl _
      · exact hmins y h1
    have hmem : m ∈ l := hp.mem_iff.mp (List.mem_cons_self m rest)
    constructor
    · intro hx
      have hx2 := List.mem_filter.mp hx
      have hxl : x ∈ l := hp.mem_iff.mp hx2.1
      have hxm : key x = key m := of_decide_eq_true hx2.2
      exact ⟨hxl, by rw [hxm]; exact hmin⟩
    · intro ⟨hxl, hxlow⟩
      refine List.mem_filter.mpr ⟨hp.mem_iff.mpr hxl, decide_eq_true ?_⟩
      exact le_antisymm (hxlow m hmem) (hmin x hxl)

theorem minimumDicts_count {α : Type} [DecidableEq α] (key : α → ℚ) (l : List α) (x : α)
    (hmin : ∀ y ∈ l, key x ≤ key y) :
    (minimumDicts key l).count x = l.count x := by
  unfold minimumDicts
  rcases h : sortByKey key l with _ | ⟨m, rest⟩
  · have hp := sortByKey_perm key l
    rw [h] at hp
    have hl : l = [] := hp.symm.eq_nil
    subst hl
    simp
  · have hp := sortByKey_perm key l
    rw [h] at hp
    have hs := sortByKey_sorted key l
    rw [h] at hs
    have hmem : m ∈ l := hp.mem_iff.mp (List.mem_cons_self m rest)
    show ((m :: rest).filter (fun d => decide (key d = key m))).count x = l.count x
    by_cases hx : x ∈ l
    · have hminsm : ∀ y ∈ l, key m ≤ key y := by
        intro y hy
        rcases List.mem_cons.mp (hp.mem_iff.mpr hy) with h1 | h1
        · subst h1; exact le_refl _
        · exact (List.pairwise_cons.mp hs).1 y h1
      have hxm : decide (key x = key m) = true :=
        decide_eq_true (le_antisymm (hmin m hmem) (hminsm x hx))
      have hcf := @List.count_filter α _ _ (fun d => decide (key d = key m)) x (m :: rest) hxm
      rw [hcf]
      exact hp.count_eq x
    · have h1 : l.count x = 0 := List.count_eq_zero.mpr hx
      have h2 : ((m :: rest).filter (fun d => decide (key d = key m))).count x = 0 := by
        refine List.count_eq_zero.mpr ?_
        intro hmem2
        exact hx (hp.mem_iff.mp (List.mem_of_mem_filter hmem2))
      rw [h1, h2]

/-! ### Lemmas about `pyMax`, `evalDivPred` and `goodHitsLoop` -/

theorem le_foldl_max (xs : List ℚ) : ∀ (b : ℚ), b ≤ xs.foldl max b := by
  induction xs with
  | nil => intro b; simp
  | cons x xs ih =>
    intro b
    exact le_trans (le_max_left b x) (by simpa using ih (max b x))

theorem mem_le_foldl_max (xs : List ℚ) : ∀ (b a : ℚ), a ∈ xs → a ≤ xs.foldl max b := by
  induction xs with
  | nil => intro b a ha; cases ha
  | cons x xs ih =>
    intro b a ha
    rcases List.mem_cons.mp ha with h | h
    · subst h
      exact le_trans (le_max_right b a) (by simpa using le_foldl_max xs (max b a))
    · simpa using ih (max b x) a h

/-- Every element of a list is bounded by its Python `max`. -/
theorem le_pyMax (xs : List ℚ) (a : ℚ) (ha : a ∈ xs) : a ≤ pyMax xs := by
  cases xs with
  | nil => cases ha
  | cons x rest =>
    rcases List.mem_cons.mp ha with h | h
    · subst h
      simpa [pyMax] using le_foldl_max rest a
    · simpa [pyMax] using mem_le_foldl_max rest x a h

/-- The divergence predicate, characterized as a proposition. -/
theorem evalDivPred_eq_true_iff (p : DivPred) (t : ℚ) :
    evalDivPred p t = true ↔
      ((p.leastSeq ≠ [] ∧ p.leastDiv > t) ∨
       ((p.startTrim ≠ 0 ∨ p.endTrim ≠ 0) ∧ p.trimDivergence ≥ t)) := by
  simp [evalDivPred, List.isEmpty_iff, Decidable.not_not]

/-- The divergence predicate's rejection, characterized as a proposition. -/
theorem evalDivPred_eq_false_iff (p : DivPred) (t : ℚ) :
    evalDivPred p t = false ↔
      (¬(p.leastSeq ≠ [] ∧ p.leastDiv > t) ∧
       ¬((p.startTrim ≠ 0 ∨ p.endTrim ≠ 0) ∧ p.trimDivergence ≥ t)) := by
  rw [← Bool.not_eq_true, evalDivPred_eq_true_iff]
  tauto

/-- Every hit accepted by the scanning loop of `getGoodEvalueHits` has an
evalue strictly below the bound. -/
theorem goodHitsLoop_evalue_lt (getSeqFunc : String → List Char) (evalue : ℚ) :
    ∀ (hits : List (String × ℚ)) (n : ℕ) (x : String × List Char × ℚ),
      x ∈ goodHitsLoop getSeqFunc evalue hits n → x.2.2 < evalue := by
  intro hits
  induction hits with
  | nil => intro n x hx; simp [goodHitsLoop] at hx
  | cons h rest ih =>
    intro n x hx
    rcases h with ⟨hitId, hitEvalue⟩
    by_cases hc : n ≥ MAX_HITS
    · simp [goodHitsLoop, hc] at hx
    · by_cases he : hitEvalue < evalue
      · rw [goodHitsLoop, if_neg hc, if_pos he] at hx
        rcases List.mem_cons.mp hx with h1 | h1
        · subst h1; exact he
        · exact ih (n + 1) x h1
      · rw [goodHitsLoop, if_neg hc, if_neg he] at hx
        exact ih n x hx

/-- Every hit returned by `getGoodEvalueHits` has an evalue strictly below the
bound. -/
theorem getGoodEvalueHits_evalue_lt
    (getHitsFunc : String → List Char → Option (List (String × ℚ)))
    (getSeqFunc : String → List Char) (seqId : String) (seq : List Char) (evalue : ℚ)
    (x : String × List Char × ℚ)
    (hx : x ∈ getGoodEvalueHits getHitsFunc getSeqFunc seqId seq evalue) :
    x.2.2 < evalue := by
  unfold getGoodEvalueHits at hx
  rcases h : getHitsFunc seqId seq with _ | hits
  · rw [h] at hx; simp at hx
  · rw [h] at hx
    exact goodHitsLoop_evalue_lt getSeqFunc evalue hits 0 x hx

/-- The divergence predicate is monotone in the threshold: a pair that is not
rejected at a threshold is not rejected at any looser threshold. -/
theorem evalDivPred_mono (p : DivPred) (t t' : ℚ) (htt : t ≤ t')
    (hf : evalDivPred p t = false) : evalDivPred p t' = false := by
  rw [evalDivPred_eq_false_iff] at hf ⊢
  constructor
  · intro ⟨hne, hgt⟩
    exact hf.1 ⟨hne, lt_of_le_of_lt htt hgt⟩
  · intro ⟨htrim, hge⟩
    exact hf.2 ⟨htrim, le_trans htt hge⟩

/-! ### Claim theorems -/

set_option maxHeartbeats 1000000 in
/-- C1: for every candidate list with resolved distances and every threshold
`(div, ev)`, the per-threshold selection keeps exactly the candidates with
`hitEvalue < ev` and divergence predicate false at `div`, and among the
survivors returns all candidates of minimum distance (with tie multiplicity
preserved), the empty list when there are no survivors. -/
theorem selectMinimum_per_threshold (cands : List HitData) (div evalue : ℚ) :
    (goodHitDatas cands div evalue = [] → selectMinimumHitDatas cands div evalue = []) ∧
    (∀ hd ∈ cands, hd.hitEvalue < evalue → evalDivPred hd.pred div = false →
      hd ∈ goodHitDatas cands div evalue) ∧
    (∀ hd ∈ goodHitDatas cands div evalue,
      hd ∈ cands ∧ hd.hitEvalue < evalue ∧ evalDivPred hd.pred div = false) ∧
    (∀ hd, hd ∈ selectMinimumHitDatas cands div evalue ↔
      (hd ∈ goodHitDatas cands div evalue ∧
        ∀ hd2 ∈ goodHitDatas cands div evalue, hd.distance ≤ hd2.distance)) ∧
    (∀ hd ∈ selectMinimumHitDatas cands div evalue,
      (selectMinimumHitDatas cands div evalue).count hd =
        (goodHitDatas cands div evalue).count hd) := by
  refine ⟨?_, ?_, ?_, ?_, ?_⟩
  · intro h
    rw [selectMinimumHitDatas, h, minimumDicts_nil]
  · intro hd hmem hev hdiv
    refine List.mem_filter.mpr ⟨hmem, ?_⟩
    simp [hev, hdiv]
  · intro hd hmem
    have h2 := List.mem_filter.mp hmem
    refine ⟨h2.1, ?_, ?_⟩
    · have := h2.2
      simp only [Bool.and_eq_true, decide_eq_true_eq] at this
      exact this.1
    · have := h2.2
      simp only [Bool.and_eq_true, decide_eq_true_eq, Bool.not_eq_true'] at this
      exact this.2
  · intro hd
    unfold selectMinimumHitDatas
    exact minimumDicts_mem (fun hd => hd.distance) (goodHitDatas cands div evalue) hd
  · intro hd hmem
    unfold selectMinimumHitDatas at hmem ⊢
    have h2 := (minimumDicts_mem (fun hd => hd.distance)
      (goodHitDatas cands div evalue) hd).mp hmem
    exact minimumDicts_count (fun hd => hd.distance) (goodHitDatas cands div evalue) hd h2.2

/-- Witness for C1 at a concrete input: both tied minimum candidates are
selected even though a lower-distance candidate fails the evalue filter. -/
theorem selectMinimum_per_threshold_witness :
    hdA ∈ selectMinimumHitDatas [hdA, hdB, hdC] 1 (1/2) ∧
    hdB ∈ selectMinimumHitDatas [hdA, hdB, hdC] 1 (1/2) := by
  constructor
  · exact ((selectMinimum_per_threshold [hdA, hdB, hdC] 1 (1/2)).2.2.2.1 hdA).mpr
      ⟨by decide, by decide⟩
  · exact ((selectMinimum_per_threshold [hdA, hdB, hdC] 1 (1/2)).2.2.2.1 hdB).mpr
      ⟨by decide, by decide⟩

/-- C10: the divergence predicate is monotone in the threshold (not rejected
at `t` implies not rejected at any `t' ≥ t`), so the pre-filter at the maximum
divergence across thresholds never removes a candidate that passes some
individual threshold's divergence filter. -/
theorem divergencePredicate_monotone :
    (∀ (p : DivPred) (t t' : ℚ), t ≤ t' →
      evalDivPred p t = false → evalDivPred p t' = false) ∧
    (∀ (divEvalues : List (ℚ × ℚ)), ∀ de ∈ divEvalues,
      ∀ (l : List HitData0), ∀ c ∈ l, evalDivPred c.pred de.1 = false →
        c ∈ l.filter (fun x => !evalDivPred x.pred (pyMax (divEvalues.map (fun q => q.1))))) := by
  constructor
  · exact evalDivPred_mono
  · intro divEvalues de hde l c hc hf
    refine List.mem_filter.mpr ⟨hc, ?_⟩
    have hle : de.1 ≤ pyMax (divEvalues.map (fun q => q.1)) :=
      le_pyMax _ de.1 (List.mem_map.mpr ⟨de, hde, rfl⟩)
    rw [Bool.not_eq_true', evalDivPred_mono c.pred de.1 _ hle hf]

/-- Witness for C10 at a concrete input. -/
theorem divergencePredicate_monotone_witness :
    evalDivPred wPred 1 = false ∧
    hd0A ∈ [hd0A].filter
      (fun x => !evalDivPred x.pred (pyMax (([((1 : ℚ), (1 : ℚ)/2), (2, 1/4)].map (fun q => q.1))))) := by
  constructor
  · exact divergencePredicate_monotone.1 wPred 0 1 (by norm_num) (by decide)
  · exact divergencePredicate_monotone.2 [(1, 1/2), (2, 1/4)] (1, 1/2) (by decide)
      [hd0A] hd0A (by decide) (by decide)

/-- C2 (code bug): on an all-gap aligned sequence `dashlen_check` does return
the 2-tuple `(0, 0)` with no divergence value, but the caller in
`getGoodDivergenceAlignedTrimmedSeqPair` unpacks three values from it, so the
pipeline raises (`ValueError` in the source, `RsdError.unpack` here) instead
of handling the case. -/
theorem dashlen_allGaps_pipeline_error :
    dashlen_check ['-', '-', '-', '-'] = DashlenResult.allGaps ∧
    processAlignedPair ("q", ['A', 'A']) ("h", ['-', '-']) = Except.error RsdError.unpack := by
  constructor
  · decide
  · decide

/-- C8: the shared distance-resolution loop keeps exactly the candidates whose
distance resolves, silently skipping the recoverable `paml_error` condition,
and aborts the whole computation when any candidate's resolution fails in any
other way. -/
theorem distance_skip_or_abort {α β : Type} (gd : α → DistRes) (att : α → ℚ → β)
    (l : List α) :
    ((∀ c ∈ l, gd c ≠ DistRes.fatal) →
      resolveDistancesGen gd att l = Except.ok (l.filterMap (fun c =>
        match gd c with
        | DistRes.ok d => some (att c d)
        | DistRes.pamlError => none
        | DistRes.fatal => none))) ∧
    ((∃ c ∈ l, gd c = DistRes.fatal) →
      resolveDistancesGen gd att l = Except.error RsdError.distFatal) := by
  induction l with
  | nil =>
    constructor
    · intro _; rfl
    · intro ⟨c, hc, _⟩; cases hc
  | cons c rest ih =>
    constructor
    · intro hno
      have hc := hno c (List.mem_cons_self c rest)
      have hrest := ih.1 (fun x hx => hno x (List.mem_cons_of_mem c hx))
      rcases hgd : gd c with d | _ | _
      · rw [resolveDistancesGen, hgd, hrest, List.filterMap_cons]
        simp [hgd]
      · rw [resolveDistancesGen, hgd, hrest, List.filterMap_cons]
        simp [hgd]
      · exact absurd hgd hc
    · intro ⟨x, hx, hgdx⟩
      rcases List.mem_cons.mp hx with h1 | h1
      · subst h1
        rw [resolveDistancesGen, hgdx]
      · rcases hgd : gd c with d | _ | _
        · rw [resolveDistancesGen, hgd, ih.2 ⟨x, h1, hgdx⟩]
        · rw [resolveDistancesGen, hgd]
          exact ih.2 ⟨x, h1, hgdx⟩
        · rw [resolveDistancesGen, hgd]

/-- Witness for C8 at concrete inputs: a `paml_error` candidate is skipped and
the run continues; a fatal candidate aborts the run. -/
theorem distance_skip_or_abort_witness :
    resolveDistancesGen wGd wAtt [0, 1] = Except.ok [(0, 5)] ∧
    resolveDistancesGen wGd2 wAtt [0, 1] = Except.error RsdError.distFatal := by
  constructor
  · rw [(distance_skip_or_abort wGd wAtt [0, 1]).1 (by decide)]
    decide
  · exact (distance_skip_or_abort wGd2 wAtt [0, 1]).2 ⟨1, by decide, by decide⟩

/-- C4 (counterexample): on the same genomes, thresholds and collaborators,
the run with the swap optimization triggering emits `(q1, s1, 2)` — the
distance its swapped forward direction computed — while the run without the
optimization emits `(q1, s1, 1)`; the two results differ even as unordered
collections, refuting the claimed equivalence. -/
theorem computeOrthologs_swap_counterexample :
    computeOrthologs c4QueryGenome c4SubjectGenome c4De c4Fh c4Rh c4Align c4Dist none true =
      Except.ok [((1, 1/2), ("q1", "s1", 2))] ∧
    computeOrthologs c4QueryGenome c4SubjectGenome c4De c4Fh c4Rh c4Align c4Dist none false =
      Except.ok [((1, 1/2), ("q1", "s1", 1))] ∧
    ¬ List.Perm [(((1 : ℚ), (1 : ℚ)/2), ("q1", "s1", (2 : ℚ)))]
        [((1, 1/2), ("q1", "s1", 1))] := by
  refine ⟨by decide, by decide, by decide⟩

/-- C4 (amended): when the swap optimization triggers (no query subset
requested, subject genome strictly smaller), `computeOrthologs` returns
exactly the swapped sub-computation's records with the first two fields of
every emitted record exchanged.  (The claimed set-equality between the
swapped and unswapped runs does not hold for direction-sensitive
collaborators; see the counterexample.) -/
theorem computeOrthologs_unswap (queryG subjectG : Genome) (divEvalues : List (ℚ × ℚ))
    (fh rh : String → List Char → Option (List (String × ℚ)))
    (al : String → List Char → String → List Char → Except RsdError (List Char × List Char))
    (gd : String → List Char → String → List Char → DistRes)
    (querySeqIds : Option (List String))
    (hfalsy : querySeqIdsFalsy querySeqIds = true)
    (hsmaller : subjectG.seqIds.length < queryG.seqIds.length)
    (l : List ((ℚ × ℚ) × (String × String × ℚ)))
    (hsub : computeOrthologsSub (mkOracles subjectG queryG rh fh al gd) divEvalues
      subjectG.seqIds = Except.ok l) :
    computeOrthologs queryG subjectG divEvalues fh rh al gd querySeqIds true =
      Except.ok (l.map swapRecord) := by
  unfold computeOrthologs
  rw [hfalsy, hsub]
  simp [hsmaller]

/-- Witness for the amended C4 at the counterexample's concrete input. -/
theorem computeOrthologs_unswap_witness :
    computeOrthologs c4QueryGenome c4SubjectGenome c4De c4Fh c4Rh c4Align c4Dist none true =
      Except.ok ([((1, 1/2), ("s1", "q1", 2))].map swapRecord) :=
  computeOrthologs_unswap c4QueryGenome c4SubjectGenome c4De c4Fh c4Rh c4Align c4Dist none
    (by decide) (by decide) [((1, 1/2), ("s1", "q1", 2))] (by decide)

/-! ### Round-trip lemmas for the serialization format -/

theorem goodField_not_mem_tab (f : List Char) (h : goodField f = true) : '\t' ∉ f := by
  intro hm
  have := (List.all_eq_true.mp h) '\t' hm
  simp at this

theorem goodField_not_mem_nl (f : List Char) (h : goodField f = true) : '\n' ∉ f := by
  intro hm
  have := (List.all_eq_true.mp h) '\n' hm
  simp at this

theorem wfRow_fields (o : OrthRow) (h : wfRow o = true) :
    goodField o.1 = true ∧ goodField o.2.1 = true ∧ goodField o.2.2 = true ∧
      o.2.2 ≠ [] ∧ ∀ c, o.2.2.getLast? = some c → isPyWs c = false := by
  have h2 := h
  unfold wfRow goodLastField at h2
  simp only [Bool.and_eq_true, Bool.not_eq_true'] at h2
  obtain ⟨⟨h1, hmid⟩, ⟨hgf, hne⟩, hlast⟩ := h2
  refine ⟨h1, hmid, hgf, by simpa [List.isEmpty_iff] using hne, ?_⟩
  intro c hc
  rw [List.getLastD_eq_getLast?, hc] at hlast
  simpa using hlast

theorem wfParams_fields (p : OrthParams) (h : wfParams p = true) :
    goodField p.1 = true ∧ goodField p.2.1 = true ∧ goodField p.2.2.1 = true ∧
      goodField p.2.2.2 = true ∧
      p.2.2.2 ≠ [] ∧ ∀ c, p.2.2.2.getLast? = some c → isPyWs c = false := by
  have h2 := h
  unfold wfParams goodLastField at h2
  simp only [Bool.and_eq_true, Bool.not_eq_true'] at h2
  obtain ⟨⟨⟨h1, hb⟩, hc3⟩, ⟨hgf, hne⟩, hlast⟩ := h2
  refine ⟨h1, hb, hc3, hgf, by simpa [List.isEmpty_iff] using hne, ?_⟩
  intro c hc
  rw [List.getLastD_eq_getLast?, hc] at hlast
  simpa using hlast

theorem splitLinesAux_line (cs : List Char) (hcs : '\n' ∉ cs) :
    ∀ (rest acc : List Char),
      splitLinesAux (cs ++ '\n' :: rest) acc =
        (acc.reverse ++ (cs ++ ['\n'])) :: splitLinesAux rest [] := by
  induction cs with
  | nil =>
    intro rest acc
    simp [splitLinesAux]
  | cons c cs ih =>
    intro rest acc
    have hc : (c == '\n') = false := by
      refine beq_eq_false_iff_ne.mpr ?_
      intro he
      subst he
      exact hcs (List.mem_cons_self _ _)
    rw [List.cons_append, splitLinesAux, if_neg (by simp [hc])]
    rw [ih (fun hm => hcs (List.mem_cons_of_mem c hm)) rest (c :: acc)]
    simp

theorem splitLines_line (cs : List Char) (hcs : '\n' ∉ cs) (rest : List Char) :
    splitLines ((cs ++ ['\n']) ++ rest) = (cs ++ ['\n']) :: splitLines rest := by
  unfold splitLines
  have h := splitLinesAux_line cs hcs rest []
  simpa using h

theorem splitTabAux_sep (f : List Char) (hf : '\t' ∉ f) :
    ∀ (rest acc : List Char),
      splitTabAux (f ++ '\t' :: rest) acc = (acc.reverse ++ f) :: splitTabAux rest [] := by
  induction f with
  | nil =>
    intro rest acc
    simp [splitTabAux]
  | cons c cs ih =>
    intro rest acc
    have hc : (c == '\t') = false := by
      refine beq_eq_false_iff_ne.mpr ?_
      intro he
      subst he
      exact hf (List.mem_cons_self _ _)
    rw [List.cons_append, splitTabAux, if_neg (by simp [hc])]
    rw [ih (fun hm => hf (List.mem_cons_of_mem c hm)) rest (c :: acc)]
    simp

theorem splitTabAux_last (f : List Char) (hf : '\t' ∉ f) :
    ∀ (acc : List Char), splitTabAux f acc = [acc.reverse ++ f] := by
  induction f with
  | nil =>
    intro acc
    simp [splitTabAux]
  | cons c cs ih =>
    intro acc
    have hc : (c == '\t') = false := by
      refine beq_eq_false_iff_ne.mpr ?_
      intro he
      subst he
      exact hf (List.mem_cons_self _ _)
    rw [splitTabAux, if_neg (by simp [hc])]
    rw [ih (fun hm => hf (List.mem_cons_of_mem c hm)) (c :: acc)]
    simp

theorem dropWhile_eq_self_of_head (p : Char → Bool) (l : List Char)
    (h : ∀ c, l.head? = some c → p c = false) : l.dropWhile p = l := by
  cases l with
  | nil => rfl
  | cons x xs =>
    rw [List.dropWhile_cons, if_neg]
    simp [h x rfl]

theorem pyStrip_body (b : List Char)
    (hh : ∀ c, b.head? = some c → isPyWs c = false)
    (hl : ∀ c, b.getLast? = some c → isPyWs c = false) :
    pyStrip (b ++ ['\n']) = b := by
  cases b with
  | nil => decide
  | cons x xs =>
    unfold pyStrip
    rw [List.cons_append]
    have h1 : (x :: (xs ++ ['\n'])).dropWhile isPyWs = x :: (xs ++ ['\n']) := by
      rw [List.dropWhile_cons, if_neg]
      simp [hh x rfl]
    rw [h1]
    have h2 : (x :: (xs ++ ['\n'])).reverse = '\n' :: (x :: xs).reverse := by
      simp
    rw [h2]
    have h3 : ('\n' :: (x :: xs).reverse).dropWhile isPyWs =
        (x :: xs).reverse.dropWhile isPyWs := by
      rw [List.dropWhile_cons, if_pos (by decide)]
    rw [h3]
    have h4 : (x :: xs).reverse.dropWhile isPyWs = (x :: xs).reverse := by
      apply dropWhile_eq_self_of_head
      intro c hc
      rw [List.head?_reverse] at hc
      exact hl c hc
    rw [h4, List.reverse_reverse]

theorem getLast?_append_right (l1 l2 : List Char) (h : l2 ≠ []) :
    (l1 ++ l2).getLast? = l2.getLast? := by
  rw [List.getLast?_append]
  rcases hgl : l2.getLast? with _ | a
  · exact absurd (List.getLast?_eq_none_iff.mp hgl) h
  · rfl

theorem paBody_getLast (f1 f2 f3 f4 : List Char) (h : f4 ≠ []) :
    (paBody (f1, f2, f3, f4)).getLast? = f4.getLast? := by
  rw [show paBody (f1, f2, f3, f4) =
      ('P' :: 'A' :: '\t' :: f1 ++ '\t' :: f2 ++ '\t' :: f3 ++ ['\t']) ++ f4 from by
    simp [paBody]]
  exact getLast?_append_right _ f4 h

theorem orBody_getLast (f1 f2 f3 : List Char) (h : f3 ≠ []) :
    (orBody (f1, f2, f3)).getLast? = f3.getLast? := by
  rw [show orBody (f1, f2, f3) = ('O' :: 'R' :: '\t' :: f1 ++ '\t' :: f2 ++ ['\t']) ++ f3 from by
    simp [orBody]]
  exact getLast?_append_right _ f3 h

theorem paLine_parse (p : OrthParams) (hwf : wfParams p = true) :
    splitTab (pyStrip (paLine p)) = [['P', 'A'], p.1, p.2.1, p.2.2.1, p.2.2.2] := by
  obtain ⟨f1, f2, f3, f4⟩ := p
  obtain ⟨h1, h2, h3, h4, hne, hlast⟩ := wfParams_fields (f1, f2, f3, f4) hwf
  have hstrip : pyStrip (paLine (f1, f2, f3, f4)) = paBody (f1, f2, f3, f4) := by
    unfold paLine
    apply pyStrip_body
    · intro c hc
      have : c = 'P' := by
        have hh : (paBody (f1, f2, f3, f4)).head? = some 'P' := rfl
        rw [hh] at hc
        exact (Option.some_inj.mp hc).symm
      subst this
      decide
    · intro c hc
      rw [paBody_getLast f1 f2 f3 f4 hne] at hc
      exact hlast c hc
  rw [hstrip]
  show splitTabAux (['P', 'A'] ++ '\t' :: (f1 ++ '\t' :: (f2 ++ '\t' :: (f3 ++ '\t' :: f4)))) []
    = _
  rw [splitTabAux_sep ['P', 'A'] (by decide) _ []]
  rw [splitTabAux_sep f1 (goodField_not_mem_tab f1 h1) _ []]
  rw [splitTabAux_sep f2 (goodField_not_mem_tab f2 h2) _ []]
  rw [splitTabAux_sep f3 (goodField_not_mem_tab f3 h3) _ []]
  rw [splitTabAux_last f4 (goodField_not_mem_tab f4 h4) []]
  simp

theorem orLine_parse (o : OrthRow) (hwf : wfRow o = true) :
    splitTab (pyStrip (orLine o)) = [['O', 'R'], o.1, o.2.1, o.2.2] := by
  obtain ⟨f1, f2, f3⟩ := o
  obtain ⟨h1, h2, h3, hne, hlast⟩ := wfRow_fields (f1, f2, f3) hwf
  have hstrip : pyStrip (orLine (f1, f2, f3)) = orBody (f1, f2, f3) := by
    unfold orLine
    apply pyStrip_body
    · intro c hc
      have : c = 'O' := by
        have hh : (orBody (f1, f2, f3)).head? = some 'O' := rfl
        rw [hh] at hc
        exact (Option.some_inj.mp hc).symm
      subst this
      decide
    · intro c hc
      rw [orBody_getLast f1 f2 f3 hne] at hc
      exact hlast c hc
  rw [hstrip]
  show splitTabAux (['O', 'R'] ++ '\t' :: (f1 ++ '\t' :: (f2 ++ '\t' :: f3))) [] = _
  rw [splitTabAux_sep ['O', 'R'] (by decide) _ []]
  rw [splitTabAux_sep f1 (goodField_not_mem_tab f1 h1) _ []]
  rw [splitTabAux_sep f2 (goodField_not_mem_tab f2 h2) _ []]
  rw [splitTabAux_last f3 (goodField_not_mem_tab f3 h3) []]
  simp

theorem nl_not_mem_paBody (p : OrthParams) (hwf : wfParams p = true) :
    '\n' ∉ paBody p := by
  obtain ⟨f1, f2, f3, f4⟩ := p
  obtain ⟨h1, h2, h3, h4, _, _⟩ := wfParams_fields (f1, f2, f3, f4) hwf
  intro hm
  simp only [paBody, List.mem_cons, List.mem_append] at hm
  rcases hm with h | h | h | h | h | h | h | h | h | h <;>
    first
    | exact absurd h (by decide)
    | exact goodField_not_mem_nl f1 h1 h
    | exact goodField_not_mem_nl f2 h2 h
    | exact goodField_not_mem_nl f3 h3 h
    | exact goodField_not_mem_nl f4 h4 h

theorem nl_not_mem_orBody (o : OrthRow) (hwf : wfRow o = true) :
    '\n' ∉ orBody o := by
  obtain ⟨f1, f2, f3⟩ := o
  obtain ⟨h1, h2, h3, _, _⟩ := wfRow_fields (f1, f2, f3) hwf
  intro hm
  simp only [orBody, List.mem_cons, List.mem_append] at hm
  rcases hm with h | h | h | h | h | h | h | h <;>
    first
    | exact absurd h (by decide)
    | exact goodField_not_mem_nl f1 h1 h
    | exact goodField_not_mem_nl f2 h2 h
    | exact goodField_not_mem_nl f3 h3 h

theorem startsWith2_paLine (p : OrthParams) : startsWith2 (paLine p) 'P' 'A' = true := rfl

theorem startsWith2_orLine_PA (o : OrthRow) : startsWith2 (orLine o) 'P' 'A' = false := rfl

theorem startsWith2_orLine_OR (o : OrthRow) : startsWith2 (orLine o) 'O' 'R' = true := rfl

theorem startsWith2_endLine_PA : startsWith2 endLine 'P' 'A' = false := by decide

theorem startsWith2_endLine_OR : startsWith2 endLine 'O' 'R' = false := by decide

theorem startsWith2_endLine_SL : startsWith2 endLine '/' '/' = true := by decide

theorem parse_orRows (params : OrthParams) :
    ∀ (rows : List OrthRow), rows.all wfRow = true →
      ∀ (rest : List (List Char)) (pfx : List OrthRow) (acc : List OrthData),
        parseOrthLines (rows.map orLine ++ rest) (some (params, pfx)) acc =
          parseOrthLines rest (some (params, pfx ++ rows)) acc := by
  intro rows
  induction rows with
  | nil =>
    intro _ rest pfx acc
    simp
  | cons r rows ih =>
    intro hwf rest pfx acc
    rw [List.all_cons, Bool.and_eq_true] at hwf
    rw [List.map_cons, List.cons_append]
    simp only [parseOrthLines, startsWith2_orLine_PA, startsWith2_orLine_OR,
      Bool.false_eq_true, if_false, if_true, orLine_parse r hwf.1]
    rw [ih hwf.2 rest (pfx ++ [r]) acc]
    simp

theorem parse_groups :
    ∀ (ds : List OrthData), ds.all wfOrthData = true →
      ∀ (st : Option (OrthParams × List OrthRow)) (acc : List OrthData),
        parseOrthLines (ds.flatMap orthDataLines) st acc = Except.ok (acc ++ ds) := by
  intro ds
  induction ds with
  | nil =>
    intro _ st acc
    simp [parseOrthLines]
  | cons d rest ih =>
    intro hwf st acc
    rw [List.all_cons, Bool.and_eq_true] at hwf
    obtain ⟨hd, hrest⟩ := hwf
    obtain ⟨p, rows⟩ := d
    unfold wfOrthData at hd
    rw [Bool.and_eq_true] at hd
    rw [List.flatMap_cons, orthDataLines, List.cons_append]
    simp only [parseOrthLines, startsWith2_paLine, if_true, paLine_parse p hd.1]
    rw [List.append_assoc]
    rw [parse_orRows (p.1, p.2.1, p.2.2.1, p.2.2.2) rows hd.2
      ([endLine] ++ rest.flatMap orthDataLines) [] acc]
    rw [List.nil_append, List.singleton_append]
    simp only [parseOrthLines, startsWith2_endLine_PA, startsWith2_endLine_OR,
      startsWith2_endLine_SL, Bool.false_eq_true, if_false, if_true]
    rw [ih hrest _ (acc ++ [((p.1, p.2.1, p.2.2.1, p.2.2.2), rows)])]
    simp

theorem splitLines_orRows :
    ∀ (rows : List OrthRow), rows.all wfRow = true → ∀ (S : List Char),
      splitLines (rows.flatMap orLine ++ S) = rows.map orLine ++ splitLines S := by
  intro rows
  induction rows with
  | nil =>
    intro _ S
    simp
  | cons r rows ih =>
    intro hwf S
    rw [List.all_cons, Bool.and_eq_true] at hwf
    rw [List.flatMap_cons, List.append_assoc, List.map_cons]
    rw [show orLine r = orBody r ++ ['\n'] from rfl]
    rw [splitLines_line (orBody r) (nl_not_mem_orBody r hwf.1)]
    rw [ih hwf.2 S]
    rfl

theorem splitLines_stream :
    ∀ (ds : List OrthData), ds.all wfOrthData = true →
      splitLines (orthDatasToStream ds) = ds.flatMap orthDataLines := by
  intro ds
  induction ds with
  | nil =>
    intro _
    rfl
  | cons d rest ih =>
    intro hwf
    rw [List.all_cons, Bool.and_eq_true] at hwf
    obtain ⟨hd, hrest⟩ := hwf
    obtain ⟨p, rows⟩ := d
    unfold wfOrthData at hd
    rw [Bool.and_eq_true] at hd
    rw [orthDatasToStream]
    rw [show paLine p = paBody p ++ ['\n'] from rfl]
    rw [splitLines_line (paBody p) (nl_not_mem_paBody p hd.1)]
    rw [splitLines_orRows rows hd.2]
    rw [show endLine ++ orthDatasToStream rest = (['/', '/'] ++ ['\n']) ++ orthDatasToStream rest
      from rfl]
    rw [splitLines_line ['/', '/'] (by decide)]
    rw [ih hrest]
    rw [List.flatMap_cons, orthDataLines]
    simp [paLine, endLine]

/-- C9 (amended): serialization followed by parsing is the identity on every
list of orthData groups whose text fields contain no tab or newline and whose
final field per row is nonempty and does not end in whitespace — including
groups with an empty ortholog list. -/
theorem orthDatas_roundtrip (ds : List OrthData) (h : ds.all wfOrthData = true) :
    orthDatasFromStream (orthDatasToStream ds) = Except.ok ds := by
  unfold orthDatasFromStream
  rw [splitLines_stream ds h, parse_groups ds h none []]
  simp

/-- C9 (counterexample): a field containing a tab breaks the round trip — the
params line splits into six parts and the parser's 5-way unpacking raises
(`ValueError` in the source), so parsing the serialized form of this orthData
list does not return it. -/
theorem orthDatas_roundtrip_counterexample :
    orthDatasFromStream (orthDatasToStream [((['a', '\t', 'b'], ['d'], ['e'], ['f']), [])]) =
      Except.error () ∧
    orthDatasFromStream (orthDatasToStream [((['a', '\t', 'b'], ['d'], ['e'], ['f']), [])]) ≠
      Except.ok [((['a', '\t', 'b'], ['d'], ['e'], ['f']), [])] := by
  constructor
  · decide
  · decide

/-- Witness for the amended C9 at a concrete input including a zero-ortholog
group. -/
theorem orthDatas_roundtrip_witness :
    orthDatasFromStream (orthDatasToStream c9Ds) = Except.ok c9Ds :=
  orthDatas_roundtrip c9Ds (by decide)

/-! ### Reverse-stage lemmas (C3, C5) -/

/-- Every record the per-threshold emission produces is the single
`(threshold, (queryId, hitId, forwardDistance))` tuple. -/
theorem emit_tag (q hid : String) (fd : ℚ) (a2 : List RevHitData) (de : ℚ × ℚ) :
    ∀ rec ∈ emitForThreshold q hid fd a2 de, rec = (de, (q, hid, fd)) := by
  intro rec hrec
  unfold emitForThreshold at hrec
  split at hrec
  · rcases List.mem_singleton.mp hrec with h
    exact h
  · cases hrec

theorem filter_emit_eq (q hid : String) (fd : ℚ) (a2 : List RevHitData) (e : ℚ × ℚ) :
    (emitForThreshold q hid fd a2 e).filter (fun r => decide (r.1 = e)) =
      emitForThreshold q hid fd a2 e := by
  unfold emitForThreshold
  split
  · simp
  · simp

theorem filter_emit_ne (q hid : String) (fd : ℚ) (a2 : List RevHitData) (e de : ℚ × ℚ)
    (h : e ≠ de) :
    (emitForThreshold q hid fd a2 e).filter (fun r => decide (r.1 = de)) = [] := by
  unfold emitForThreshold
  split
  · simp [h]
  · simp

theorem flatMap_emit_filter (q hid : String) (fd : ℚ) (a2 : List RevHitData) :
    ∀ (sel : List (ℚ × ℚ)), sel.Nodup → ∀ de ∈ sel,
      (sel.flatMap (emitForThreshold q hid fd a2)).filter (fun r => decide (r.1 = de)) =
        emitForThreshold q hid fd a2 de := by
  intro sel
  induction sel with
  | nil =>
    intro _ de hde
    cases hde
  | cons e sel ih =>
    intro hnd de hde
    rw [List.flatMap_cons, List.filter_append]
    rcases List.mem_cons.mp hde with h1 | h1
    · subst h1
      rw [filter_emit_eq]
      have hnotmem : de ∉ sel := (List.nodup_cons.mp hnd).1
      have hrest : (sel.flatMap (emitForThreshold q hid fd a2)).filter
          (fun r => decide (r.1 = de)) = [] := by
        rw [List.filter_eq_nil_iff]
        intro rec hrec
        rcases List.mem_flatMap.mp hrec with ⟨e2, he2, hrec2⟩
        have htag := emit_tag q hid fd a2 e2 rec hrec2
        have hne : e2 ≠ de := fun hcontra => hnotmem (hcontra ▸ he2)
        subst htag
        simp [hne]
      rw [hrest, List.append_nil]
    · have hne : e ≠ de := by
        rintro rfl
        exact (List.nodup_cons.mp hnd).1 h1
      rw [filter_emit_ne q hid fd a2 e de hne, List.nil_append]
      exact ih (List.nodup_cons.mp hnd).2 de h1

/-- C3: for a winner hit selected by a duplicate-free list of thresholds, the
records this winner contributes to a given threshold's result list are exactly
the emission for that threshold — empty, or the single
`(queryId, hitId, forwardDistance)` record; when the original query id is
among the minimum-distance reverse winners it is exactly that one record,
whose distance field is the forward distance (it does not depend on the
reverse candidates' distances); and every record `processWinner` returns
carries `(queryId, hitId, hd.distance)` with `hd.distance` the winner's
forward distance. -/
theorem emit_per_threshold (queryId hitId : String) (fd : ℚ) (a2 : List RevHitData)
    (sel : List (ℚ × ℚ)) (hnd : sel.Nodup) (de : ℚ × ℚ) (hde : de ∈ sel) :
    ((sel.flatMap (emitForThreshold queryId hitId fd a2)).filter
        (fun r => decide (r.1 = de)) = emitForThreshold queryId hitId fd a2 de) ∧
    (emitForThreshold queryId hitId fd a2 de = [] ∨
      emitForThreshold queryId hitId fd a2 de = [(de, (queryId, hitId, fd))]) ∧
    (queryId ∈ (minimumDicts (fun r => r.distance)
        (goodRevHitDatas a2 de.1 de.2)).map (fun r => r.revHitId) →
      emitForThreshold queryId hitId fd a2 de = [(de, (queryId, hitId, fd))]) ∧
    (∀ (O : Oracles) (hd : HitData) (out : List ((ℚ × ℚ) × (String × String × ℚ))),
      processWinner O sel queryId hd = Except.ok out →
      ∀ rec ∈ out, rec.2 = (queryId, hd.hitId, hd.distance)) := by
  refine ⟨flatMap_emit_filter queryId hitId fd a2 sel hnd de hde, ?_, ?_, ?_⟩
  · unfold emitForThreshold
    split
    · right; rfl
    · left; rfl
  · intro hmem
    unfold emitForThreshold
    rw [if_pos hmem]
  · intro O hd out hout rec hrec
    unfold processWinner at hout
    split at hout
    · split at hout
      · cases hout
      · split at hout
        · split at hout
          · cases hout
          · have hout2 := Except.ok.inj hout
            subst hout2
            rcases List.mem_flatMap.mp hrec with ⟨e2, _, hrec2⟩
            have htag := emit_tag queryId hd.hitId hd.distance _ e2 rec hrec2
            subst htag
            rfl
        · have hout2 := Except.ok.inj hout
          subst hout2
          cases hrec
    · have hout2 := Except.ok.inj hout
      subst hout2
      cases hrec

/-- C5: the reverse stage of a winner gathers reverse hits strictly bounded by
the loosest (maximum) evalue among the thresholds that selected the winner;
when the original query id is absent from the gathered reverse-hit ids the
winner is skipped with result `[]` no matter what the aligner and distance
collaborators would do (no alignment or distance work is consumed); and after
distance filtering, a reverse candidate list that does not contain the query
id can emit nothing for any threshold. -/
theorem processWinner_props (O : Oracles) (sel : List (ℚ × ℚ)) (queryId : String)
    (hd : HitData) :
    (queryId ∉ (revGather O sel hd.hitId hd.hitSeq).map (fun x => x.1) →
      ∀ (al : String → List Char → String → List Char →
          Except RsdError (List Char × List Char))
        (gd : String → List Char → String → List Char → DistRes),
        processWinner { O with align := al, getDistance := gd } sel queryId hd =
          Except.ok []) ∧
    (∀ x ∈ revGather O sel hd.hitId hd.hitSeq, x.2.2 < pyMax (sel.map (fun de => de.2))) ∧
    (∀ (a2 : List RevHitData) (fd : ℚ) (de : ℚ × ℚ),
      queryId ∉ a2.map (fun r => r.revHitId) →
      emitForThreshold queryId hd.hitId fd a2 de = []) := by
  refine ⟨?_, ?_, ?_⟩
  · intro habs al gd
    unfold processWinner
    have hrg : revGather { O with align := al, getDistance := gd } sel hd.hitId hd.hitSeq =
        revGather O sel hd.hitId hd.hitSeq := rfl
    rw [hrg, if_neg habs]
  · intro x hx
    unfold revGather at hx
    exact getGoodEvalueHits_evalue_lt O.getReverseHits O.getQuerySeq hd.hitId hd.hitSeq
      (pyMax (sel.map (fun de => de.2))) x hx
  · intro a2 fd de habs
    unfold emitForThreshold
    rw [if_neg]
    intro hmem
    rcases List.mem_map.mp hmem with ⟨r, hr, hrid⟩
    have hrsub : r ∈ goodRevHitDatas a2 de.1 de.2 :=
      ((minimumDicts_mem (fun r => r.distance) (goodRevHitDatas a2 de.1 de.2) r).mp hr).1
    have hra2 : r ∈ a2 := List.mem_of_mem_filter hrsub
    exact habs (List.mem_map.mpr ⟨r, hra2, hrid⟩)

/-- Witness for C5 at a concrete input: with the query id absent from the
reverse hits the winner yields no records, even under a distance collaborator
that would fail fatally if it were consulted, and the post-distance emission
is empty when the query id is absent. -/
theorem processWinner_props_witness :
    processWinner { c5O with align := c4Align, getDistance := fun _ _ _ _ => DistRes.fatal }
      [(1, 1)] "q1" hdA = Except.ok [] ∧
    emitForThreshold "q1" "h1" 1 [] (1, 1) = [] := by
  constructor
  · exact (processWinner_props c5O [(1, 1)] "q1" hdA).1 (by decide) c4Align
      (fun _ _ _ _ => DistRes.fatal)
  · exact (processWinner_props c5O [(1, 1)] "q1" hdA).2.2 [] 1 (1, 1) (by decide)

/-- Witness for C3 at a concrete input: two thresholds, the query id among the
minimum-distance reverse winners of the first one only. -/
theorem emit_per_threshold_witness :
    emitForThreshold "q1" "h1" (7 : ℚ) [⟨"q1", ['M'], 1/4, ['M'], ['M'], wPred, 3⟩]
      (1, 1) = [((1, 1), ("q1", "h1", 7))] := by
  exact (emit_per_threshold "q1" "h1" 7 [⟨"q1", ['M'], 1/4, ['M'], ['M'], wPred, 3⟩]
    [(1, 1), (2, 1)] (by decide) (1, 1) (by decide)).2.2.1 (by decide)

/-! ### Divergence predicate construction lemmas (C6, C7) -/

/-- Trims computed by `dashlen_check` are either zero or at least 10. -/
theorem dashlen_trims (s : List Char) (st et : ℕ) (td : ℚ)
    (h : dashlen_check s = DashlenResult.trimmed st et td) :
    (st = 0 ∨ 10 ≤ st) ∧ (et = 0 ∨ 10 ≤ et) := by
  simp only [dashlen_check] at h
  split at h
  · cases h
  · injection h with hx hy hz
    constructor
    · split at hx <;> omega
    · split at hy <;> omega

/-- The divergence predicate of a successfully built alignment, restated with
the trim-applied test as "at least 10". -/
theorem pred_iff_of (leastSeq : List Char) (ld : ℚ) (st et : ℕ) (td : ℚ)
    (hne : leastSeq ≠ []) (hst : st = 0 ∨ 10 ≤ st) (het : et = 0 ∨ 10 ≤ et) (t : ℚ) :
    evalDivPred ⟨leastSeq, ld, st, et, td⟩ t = true ↔
      (ld > t ∨ ((10 ≤ st ∨ 10 ≤ et) ∧ td ≥ t)) := by
  rw [evalDivPred_eq_true_iff]
  dsimp only
  constructor
  · rintro (⟨_, hgt⟩ | ⟨h1, hge⟩)
    · exact Or.inl hgt
    · refine Or.inr ⟨?_, hge⟩
      rcases h1 with h | h
      · left; omega
      · right; omega
  · rintro (hgt | ⟨h1, hge⟩)
    · exact Or.inl ⟨hne, hgt⟩
    · refine Or.inr ⟨?_, hge⟩
      rcases h1 with h | h
      · left; omega
      · right; omega

theorem divKeyLt_true_le (a b : ℕ × ℚ × String × List Char) (h : divKeyLt a b = true) :
    a.1 ≤ b.1 := by
  unfold divKeyLt at h
  rw [Bool.or_eq_true] at h
  rcases h with h | h
  · exact le_of_lt (of_decide_eq_true h)
  · rw [Bool.and_eq_true] at h
    exact le_of_eq (of_decide_eq_true h.1)

theorem divKeyLt_false_le (a b : ℕ × ℚ × String × List Char) (h : divKeyLt a b = false) :
    b.1 ≤ a.1 := by
  unfold divKeyLt at h
  rw [Bool.or_eq_false_iff] at h
  exact Nat.le_of_not_lt (of_decide_eq_false h.1)

/-- For equal positive lengths the gap count order gives the gap density
order. -/
theorem gapDensity_le (s1 s2 : List Char) (hlen : s1.length = s2.length)
    (h0 : s1.length ≠ 0) (hc : s1.count '-' ≤ s2.count '-') :
    gapDensity s1 ≤ gapDensity s2 := by
  unfold gapDensity
  rw [hlen]
  have hpos : (0 : ℚ) < (s2.length : ℚ) := by
    have : 0 < s2.length := by omega
    exact_mod_cast this
  have hcq : (s1.count '-' : ℚ) ≤ (s2.count '-' : ℚ) := by exact_mod_cast hc
  gcongr

/-- C6: for every aligned pair of equal-length sequences on which the
divergence-predicate construction succeeds, the predicate holds at a
threshold exactly when the less-gapped sequence's gap density strictly
exceeds the threshold, or a trim of at least 10 was applied and the trimmed
gap density of the more-gapped sequence is at least the threshold; the
predicate's base density is the minimum gap density of the pair and its trim
data is `dashlen_check` of a maximal-density member of the pair. -/
theorem divPred_characterization (p1 p2 : String × List Char) (r : AlignedTrimmedPair)
    (hlen : p1.2.length = p2.2.length)
    (hok : processAlignedPair p1 p2 = Except.ok r) :
    (∀ t : ℚ, evalDivPred r.pred t = true ↔
      (r.pred.leastDiv > t ∨
        ((10 ≤ r.pred.startTrim ∨ 10 ≤ r.pred.endTrim) ∧ r.pred.trimDivergence ≥ t))) ∧
    r.pred.leastDiv = min (gapDensity p1.2) (gapDensity p2.2) ∧
    (∃ m, (m = p1.2 ∨ m = p2.2) ∧
      gapDensity m = max (gapDensity p1.2) (gapDensity p2.2) ∧
      dashlen_check m =
        DashlenResult.trimmed r.pred.startTrim r.pred.endTrim r.pred.trimDivergence) := by
  unfold processAlignedPair at hok
  split at hok
  · cases hok
  · rename_i hlen0
    have hn1 : p1.2.length ≠ 0 := fun hx => hlen0 (Or.inl hx)
    have hn2 : p2.2.length ≠ 0 := fun hx => hlen0 (Or.inr hx)
    have hne1 : p1.2 ≠ [] := fun hx => hn1 (by rw [hx]; rfl)
    have hne2 : p2.2 ≠ [] := fun hx => hn2 (by rw [hx]; rfl)
    by_cases hkey : divKeyLt (mkDivKey p2) (mkDivKey p1) = true
    · rw [if_pos hkey] at hok
      dsimp only at hok
      rcases hdl : dashlen_check p1.2 with _ | ⟨st, et, td⟩
      · rw [hdl] at hok
        cases hok
      · rw [hdl] at hok
        have hr := Except.ok.inj hok
        subst hr
        dsimp only
        have hcle : p2.2.count '-' ≤ p1.2.count '-' :=
          divKeyLt_true_le (mkDivKey p2) (mkDivKey p1) hkey
        have hdle : gapDensity p2.2 ≤ gapDensity p1.2 :=
          gapDensity_le p2.2 p1.2 hlen.symm (by omega) hcle
        have htr := dashlen_trims p1.2 st et td hdl
        refine ⟨?_, ?_, ?_⟩
        · intro t
          exact pred_iff_of p2.2 (gapDensity p2.2) st et td hne2 htr.1 htr.2 t
        · rw [min_eq_right hdle]
        · exact ⟨p1.2, Or.inl rfl, by rw [max_eq_left hdle], hdl⟩
    · rw [if_neg hkey] at hok
      dsimp only at hok
      rcases hdl : dashlen_check p2.2 with _ | ⟨st, et, td⟩
      · rw [hdl] at hok
        cases hok
      · rw [hdl] at hok
        have hr := Except.ok.inj hok
        subst hr
        dsimp only
        have hcle : p1.2.count '-' ≤ p2.2.count '-' :=
          divKeyLt_false_le (mkDivKey p2) (mkDivKey p1) (Bool.not_eq_true _ ▸ hkey)
        have hdle : gapDensity p1.2 ≤ gapDensity p2.2 :=
          gapDensity_le p1.2 p2.2 hlen hn1 hcle
        have htr := dashlen_trims p2.2 st et td hdl
        refine ⟨?_, ?_, ?_⟩
        · intro t
          exact pred_iff_of p1.2 (gapDensity p1.2) st et td hne1 htr.1 htr.2 t
        · rw [min_eq_left hdle]
        · exact ⟨p2.2, Or.inr rfl, by rw [max_eq_right hdle], hdl⟩

/-- Witness for C6 at a concrete input and threshold. -/
theorem divPred_characterization_witness :
    evalDivPred c6R.pred 1 = true ↔
      (c6R.pred.leastDiv > 1 ∨
        ((10 ≤ c6R.pred.startTrim ∨ 10 ≤ c6R.pred.endTrim) ∧ c6R.pred.trimDivergence ≥ 1)) :=
  (divPred_characterization ("a", ['A', 'B', '-', '-']) ("b", ['A', '-', '-', '-']) c6R
    (by decide) (by decide)).1 1

theorem head?_dropWhile_not (p : Char → Bool) :
    ∀ (l : List Char) (c : Char), (l.dropWhile p).head? = some c → p c = false := by
  intro l
  induction l with
  | nil =>
    intro c hc
    cases hc
  | cons x xs ih =>
    intro c hc
    rw [List.dropWhile_cons] at hc
    by_cases hp : p x = true
    · rw [if_pos hp] at hc
      exact ih c hc
    · rw [if_neg hp] at hc
      have hx : x = c := Option.some_inj.mp hc
      subst hx
      exact Bool.not_eq_true _ ▸ hp

/-- C7: on a sequence that is not entirely gaps, the stripped sequence splits
as a leading gap run, a nonempty core delimited by non-gap characters, and a
trailing gap run; `dashlen_check` reports the two run lengths with runs
shorter than 10 zeroed out (not applied), and the trimmed divergence is the
core's gap count divided by the core's length. -/
theorem dashlen_not_allGaps (s : List Char)
    (h : (pyStrip s).dropWhile isDash ≠ []) :
    ∃ front core back,
      pyStrip s = front ++ core ++ back ∧
      (∀ c ∈ front, c = '-') ∧ (∀ c ∈ back, c = '-') ∧
      core ≠ [] ∧
      (∀ c, core.head? = some c → c ≠ '-') ∧
      (∀ c, core.getLast? = some c → c ≠ '-') ∧
      dashlen_check s = DashlenResult.trimmed
        (if front.length < 10 then 0 else front.length)
        (if back.length < 10 then 0 else back.length)
        ((core.count '-' : ℚ) / (core.length : ℚ)) := by
  refine ⟨(pyStrip s).takeWhile isDash,
    (((pyStrip s).dropWhile isDash).reverse.dropWhile isDash).reverse,
    (((pyStrip s).dropWhile isDash).reverse.takeWhile isDash).reverse, ?_, ?_, ?_, ?_, ?_, ?_, ?_⟩
  case _ =>
    conv =>
      lhs
      rw [← List.takeWhile_append_dropWhile isDash (pyStrip s)]
    rw [List.append_assoc]
    congr 1
    conv =>
      lhs
      rw [← List.reverse_reverse ((pyStrip s).dropWhile isDash),
        ← List.takeWhile_append_dropWhile isDash ((pyStrip s).dropWhile isDash).reverse]
    rw [List.reverse_append]
  case _ =>
    intro c hc
    have := List.mem_takeWhile_imp hc
    simpa [isDash] using this
  case _ =>
    intro c hc
    rw [List.mem_reverse] at hc
    have := List.mem_takeWhile_imp hc
    simpa [isDash] using this
  case _ =>
    intro hnil
    rw [List.reverse_eq_nil_iff] at hnil
    rw [List.dropWhile_eq_nil_iff] at hnil
    obtain ⟨c0, hc0⟩ : ∃ c0, ((pyStrip s).dropWhile isDash).head? = some c0 := by
      rcases hd : (pyStrip s).dropWhile isDash with _ | ⟨x, xs⟩
      · exact absurd hd h
      · exact ⟨x, rfl⟩
    have hc0d : isDash c0 = false := head?_dropWhile_not isDash (pyStrip s) c0 hc0
    have hc0mem : c0 ∈ (pyStrip s).dropWhile isDash := by
      rcases hd : (pyStrip s).dropWhile isDash with _ | ⟨x, xs⟩
      · exact absurd hd h
      · rw [hd] at hc0
        have hx : x = c0 := Option.some_inj.mp hc0
        subst hx
        exact List.mem_cons_self _ _
    have := hnil c0 (List.mem_reverse.mpr hc0mem)
    rw [hc0d] at this
    cases this
  case _ =>
    intro c hc
    obtain ⟨c0, hc0⟩ : ∃ c0, ((pyStrip s).dropWhile isDash).head? = some c0 := by
      rcases hd : (pyStrip s).dropWhile isDash with _ | ⟨x, xs⟩
      · exact absurd hd h
      · exact ⟨x, rfl⟩
    have hc0d : isDash c0 = false := head?_dropWhile_not isDash (pyStrip s) c0 hc0
    -- the core's head is the head of the dash-stripped sequence
    have hsplit : (pyStrip s).dropWhile isDash =
        (((pyStrip s).dropWhile isDash).reverse.dropWhile isDash).reverse ++
          (((pyStrip s).dropWhile isDash).reverse.takeWhile isDash).reverse := by
      conv =>
        lhs
        rw [← List.reverse_reverse ((pyStrip s).dropWhile isDash),
          ← List.takeWhile_append_dropWhile isDash ((pyStrip s).dropWhile isDash).reverse]
      rw [List.reverse_append]
    have hho : ((pyStrip s).dropWhile isDash).head? = some c := by
      rw [hsplit, List.head?_append, hc]
      rfl
    have : c0 = c := Option.some_inj.mp (hc0.symm.trans hho)
    subst this
    intro hdash
    subst hdash
    simp [isDash] at hc0d
  case _ =>
    intro c hc
    rw [← List.head?_reverse, List.reverse_reverse] at hc
    have := head?_dropWhile_not isDash ((pyStrip s).dropWhile isDash).reverse c hc
    intro hdash
    subst hdash
    simp [isDash] at this
  case _ =>
    simp only [dashlen_check]
    have hlen : ((pyStrip s).dropWhile isDash).length -
        ((((pyStrip s).dropWhile isDash).reverse.dropWhile isDash).reverse).length =
        ((((pyStrip s).dropWhile isDash).reverse.takeWhile isDash).reverse).length := by
      have hsum : (((pyStrip s).dropWhile isDash).reverse.takeWhile isDash).length +
          (((pyStrip s).dropWhile isDash).reverse.dropWhile isDash).length =
          ((pyStrip s).dropWhile isDash).length := by
        rw [← List.length_append, List.takeWhile_append_dropWhile, List.length_reverse]
      simp only [List.length_reverse]
      omega
    rw [hlen]
    rw [if_neg]
    intro hempty
    rw [List.isEmpty_iff, List.reverse_eq_nil_iff, List.dropWhile_eq_nil_iff] at hempty
    obtain ⟨c0, hc0⟩ : ∃ c0, ((pyStrip s).dropWhile isDash).head? = some c0 := by
      rcases hd : (pyStrip s).dropWhile isDash with _ | ⟨x, xs⟩
      · exact absurd hd h
      · exact ⟨x, rfl⟩
    have hc0d : isDash c0 = false := head?_dropWhile_not isDash (pyStrip s) c0 hc0
    have hc0mem : c0 ∈ (pyStrip s).dropWhile isDash := by
      rcases hd : (pyStrip s).dropWhile isDash with _ | ⟨x, xs⟩
      · exact absurd hd h
      · rw [hd] at hc0
        have hx : x = c0 := Option.some_inj.mp hc0
        subst hx
        exact List.mem_cons_self _ _
    have := hempty c0 (List.mem_reverse.mpr hc0mem)
    rw [hc0d] at this
    cases this

/-- Witness for C7 at a concrete input: the 12-long leading run is applied,
the 2-long trailing run is zeroed, and the trimmed divergence is 1/3. -/
theorem dashlen_not_allGaps_witness :
    dashlen_check c7S = DashlenResult.trimmed 12 0 (1/3) ∧
    ∃ front core back,
      pyStrip c7S = front ++ core ++ back ∧
      (∀ c ∈ front, c = '-') ∧ (∀ c ∈ back, c = '-') ∧
      core ≠ [] ∧
      (∀ c, core.head? = some c → c ≠ '-') ∧
      (∀ c, core.getLast? = some c → c ≠ '-') ∧
      dashlen_check c7S = DashlenResult.trimmed
        (if front.length < 10 then 0 else front.length)
        (if back.length < 10 then 0 else back.length)
        ((core.count '-' : ℚ) / (core.length : ℚ)) :=
  ⟨by decide, dashlen_not_allGaps c7S (by decide)⟩

end Rsd
